import Mathlib

/-!
Verification development for the GBTL GKC vxm kernel
(`src/graphblas/platforms/GKC/sparse_vxm.hpp`) and the adjacency-list
matrix iterator (`src/graphblas/detail/iterators/LilSparseMatrixIterator.hpp`).

The C++ is shallowly embedded: dense vectors become a size plus a
`Nat → Option α` slot map, GKC sparse vectors become an assoc list of
`(index, value)` entries plus the unsorted flag, matrices become lists of
rows, and each `vxm` overload becomes a Lean function following the source
control flow.  Loops whose iterations touch pairwise distinct indices
(the merge pass, which the source itself marks `#pragma omp parallel for`)
are embedded pointwise; loops that thread state through a shared
accumulator are embedded as left folds in program order.
-/

namespace GBTL

/-- Output-control flag, from `OutputControlEnum` (REPLACE / MERGE). -/
inductive OutputControlEnum where
  | REPLACE
  | MERGE
deriving DecidableEq

export OutputControlEnum (REPLACE MERGE)

/-- Semiring boundary contract: an additive combine and a multiplicative
combine over one scalar type (the kernel consumes it opaquely). -/
structure SR (α : Type) where
  add : α → α → α
  mult : α → α → α

/-- One row of a row-sparse matrix: `(column, value)` pairs. -/
abbrev Row (α : Type) := List (Nat × α)

/-- Row-sparse matrix: a list of per-row `(column, value)` lists. -/
abbrev Mat (α : Type) := List (Row α)

/-- Row access `A[i]`; out-of-range access is total here (empty row). -/
def rowAt (A : Mat α) (i : Nat) : Row α := A.getD i []

/-- Modelled from the spec: `nvals()` of a row-sparse matrix is the sum of
the row cardinalities (§4.1); the GKCMatrix implementation is not in src. -/
def matNvals (A : Mat α) : Nat := (A.map List.length).sum

/-- Modelled from the spec: `GKCDenseVector` (§3, §4.2) — a fixed size and
a per-slot presence/value map; the implementation header is not in src. -/
structure DVec (α : Type) where
  size : Nat
  data : Nat → Option α

namespace DVec

/-- Modelled from the spec: `hasElement(i)` — presence test (§4.2). -/
def hasElement (v : DVec α) (i : Nat) : Bool := (v.data i).isSome

/-- Modelled from the spec: nvals = number of present slots. -/
def nvals (v : DVec α) : Nat :=
  (List.range v.size).countP (fun i => (v.data i).isSome)

/-- Modelled from the spec: `setElement(i, x)` — overwrite, mark present. -/
def set (v : DVec α) (i : Nat) (x : α) : DVec α :=
  ⟨v.size, fun j => if j = i then some x else v.data j⟩

/-- Modelled from the spec: `clear()` — mark all slots absent. -/
def clear (v : DVec α) : DVec α := ⟨v.size, fun _ => none⟩

/-- Modelled from the spec: `boolRemoveElement(i)` — mark slot absent. -/
def remove (v : DVec α) (i : Nat) : DVec α :=
  ⟨v.size, fun j => if j = i then none else v.data j⟩

/-- Empty dense vector of a given size. -/
def empty (α : Type) (n : Nat) : DVec α := ⟨n, fun _ => none⟩

end DVec

/-- The mask argument of the dense-vector `vxm` overload: either the
`NoMask` sentinel, or an inner mask vector together with the two
compile-time flags the kernel derives from the view type
(`comp` from `is_complement_v`/`is_structural_complement_v`,
`strc` from `is_structure_v`/`is_structural_complement_v`). -/
inductive MaskArg where
  | noMask
  | mask (mv : DVec Bool) (comp strc : Bool)

/-- The membership test the dense overload runs at every mask consultation
point (lines 310 and 382 of `sparse_vxm.hpp`):
`comp ^ (mask_vec.boolExtractElement(i, val) && (strc || val))`,
and `true` for the `NoMask` sentinel branch. -/
def maskArgPass : MaskArg → Nat → Bool
  | .noMask, _ => true
  | .mask mv comp strc, i => xor comp (mv.hasElement i && (strc || (mv.data i).getD false))

/-- The removal condition of the dense overload's accumulate-and-REPLACE
pre-pass (lines 248–268): `remove = !present` (structural) or
`remove = !present || !val` (value), flipped under complement. -/
def denseRemoveCond (mv : DVec Bool) (comp strc : Bool) (i : Nat) : Bool :=
  let r := if strc then !(mv.hasElement i) else (!(mv.hasElement i) || !((mv.data i).getD false))
  if comp then !r else r

/-- Pre-pass of the dense-vector `vxm` overload (lines 228–272): clears or
prunes `w` according to accumulate / mask / REPLACE before the axpy work.
The removal loop touches each index once; it is embedded pointwise. -/
def densePre (w : DVec α) (mask : MaskArg) (accum : Option (α → α → α))
    (outp : OutputControlEnum) : DVec α :=
  match accum, mask with
  | none, .noMask => w.clear
  | none, .mask _ _ _ => if outp = REPLACE then w.clear else w
  | some _, .noMask => w
  | some _, .mask mv comp strc =>
      if outp = REPLACE then
        ⟨w.size, fun i => if i < w.size ∧ denseRemoveCond mv comp strc i = true then none
                          else w.data i⟩
      else w

/-- One axpy of the dense overload's scatter phase (lines 286–344): walk a
matrix row, and for each mask-passing column accumulate
`t[col] := t[col] ⊕ (weight ⊗ uw)` (the source multiplies `*awitr` by `uw`). -/
def denseAxpyRow (op : SR α) (mask : MaskArg) (uw : α) (row : Row α) (t : DVec α) : DVec α :=
  row.foldl (fun t e =>
    if maskArgPass mask e.1 then
      match t.data e.1 with
      | some tv => t.set e.1 (op.add tv (op.mult e.2 uw))
      | none => t.set e.1 (op.mult e.2 uw)
    else t) t

/-- Scatter phase of the dense overload (lines 277–346): for every present
`u[idx]`, axpy row `A[idx]` into the temporary (fresh, of `w`'s size). -/
def denseScatter (op : SR α) (mask : MaskArg) (u : DVec α) (A : Mat α) (n : Nat) : DVec α :=
  (List.range u.size).foldl (fun t idx =>
    match u.data idx with
    | some uw => denseAxpyRow op mask uw (rowAt A idx) t
    | none => t) (DVec.empty α n)

/-- Merge pass of the dense overload (lines 349–410).  With `NoMask` and an
accumulate operator the source assigns `w = std::move(t)` and breaks; with
`NoMask` and `NoAccumulate` it `mergeSetElement`s each temporary value into
the (previously cleared) `w`, the sentinel operator never being invoked;
with a mask it writes each index per the mask test, accumulate presence and
REPLACE.  Each loop iteration touches only its own index (the source runs
it under `#pragma omp parallel for`), so it is embedded pointwise. -/
def denseMerge (w t : DVec α) (mask : MaskArg) (accum : Option (α → α → α))
    (outp : OutputControlEnum) : DVec α :=
  match mask, accum with
  | .noMask, some _ => t
  | .noMask, none =>
      ⟨w.size, fun i =>
        if i < w.size then
          match t.data i with
          | some tv => some tv
          | none => w.data i
        else w.data i⟩
  | .mask mv comp strc, _ =>
      ⟨w.size, fun i =>
        if i < w.size then
          if maskArgPass (.mask mv comp strc) i then
            match accum with
            | some f =>
              match t.data i with
              | some tv =>
                match w.data i with
                | some wv => some (f wv tv)
                | none => some tv
              | none => w.data i
            | none =>
              match t.data i with
              | some tv => some tv
              | none => none
          else if outp = REPLACE then none else w.data i
        else w.data i⟩

/-- The dense-vector `vxm` overload (lines 205–412): everything, including
the REPLACE/clear pre-pass, is guarded by `A.nvals() > 0 && u.nvals() > 0`. -/
def denseVxm (w : DVec α) (mask : MaskArg) (accum : Option (α → α → α)) (op : SR α)
    (u : DVec α) (A : Mat α) (outp : OutputControlEnum) : DVec α :=
  if 0 < matNvals A ∧ 0 < u.nvals then
    denseMerge (densePre w mask accum outp) (denseScatter op mask u A w.size) mask accum outp
  else w

/-- Modelled from the spec: `GKCSparseVector` (§3, §4.2) — parallel
index/value sequences (kept here as one assoc list), a declared size, and
the dirty/unsorted flag; the implementation header is not in src. -/
structure SVec (α : Type) where
  size : Nat
  entries : List (Nat × α)
  unsorted : Bool

namespace SVec

/-- Stored value at index `i` (`None` when absent). -/
def lookup (v : SVec α) (i : Nat) : Option α :=
  (v.entries.find? (fun e => e.1 = i)).map Prod.snd

/-- Modelled from the spec: `hasElement(i)`. -/
def hasElement (v : SVec α) (i : Nat) : Bool :=
  (v.entries.find? (fun e => e.1 = i)).isSome

/-- Modelled from the spec: nvals = number of stored entries. -/
def nvals (v : SVec α) : Nat := v.entries.length

/-- Modelled from the spec: `setElement(i, x)` — overwrite the stored value
when present, otherwise append the new entry (the kernel marks `w`
unsorted afterwards, §4.5 side effects). -/
def setElement (v : SVec α) (i : Nat) (x : α) : SVec α :=
  match v.entries.find? (fun e => e.1 = i) with
  | some _ => ⟨v.size, v.entries.map (fun e => if e.1 = i then (i, x) else e), v.unsorted⟩
  | none => ⟨v.size, v.entries ++ [(i, x)], v.unsorted⟩

/-- Modelled from the spec: `mergeSetElement(i, x, op)` — if present,
replace the stored value with `op(existing, x)`; if absent, set (§4.2). -/
def mergeSetElement (v : SVec α) (i : Nat) (x : α) (op : α → α → α) : SVec α :=
  match v.entries.find? (fun e => e.1 = i) with
  | some e => ⟨v.size, v.entries.map (fun e' => if e'.1 = i then (i, op e.2 x) else e'), v.unsorted⟩
  | none => ⟨v.size, v.entries ++ [(i, x)], v.unsorted⟩

/-- Modelled from the spec: `boolRemoveElement(i)` — drop the entry. -/
def remove (v : SVec α) (i : Nat) : SVec α :=
  ⟨v.size, v.entries.filter (fun e => !(e.1 = i : Bool)), v.unsorted⟩

/-- Modelled from the spec: `clear()`. -/
def clear (v : SVec α) : SVec α := ⟨v.size, [], v.unsorted⟩

/-- Modelled from the spec: `setUnsorted()` — raise the dirty flag. -/
def setUnsorted (v : SVec α) : SVec α := ⟨v.size, v.entries, true⟩

end SVec

/-- The densified mask of the sparse-vector `vxm` overload
(lines 462–470): a bit is set for every *stored index* of the mask vector
— stored values and complement/structure flags are not consulted — and
with the `NoMask` sentinel the gate at line 521 always passes. -/
def sparseMaskBit (mask : Option (SVec Bool)) (i : Nat) : Bool :=
  match mask with
  | none => true
  | some m => m.entries.any (fun e => e.1 = i)

/-- The accumulate-and-REPLACE pre-pass of the sparse overload
(lines 490–501): remove every `w` entry whose index is below the mask's
size and not set in the densified mask.  Each removal targets one index;
the loop is embedded as one filter. -/
def sparseRemoveNotInMask (w : SVec α) (m : SVec Bool) : SVec α :=
  ⟨w.size, w.entries.filter (fun e => !(decide (e.1 < m.size) && !(sparseMaskBit (some m) e.1))),
   w.unsorted⟩

/-- Scatter phase of the sparse overload (lines 512–534): walk `u`'s
entries, walk row `A[*UIst]`, and for each column allowed by the densified
mask merge `u_w ⊗ a_w` into the temporary with the semiring's add. -/
def sparseScatter (op : SR α) (mask : Option (SVec Bool)) (u : SVec α) (A : Mat α)
    (n : Nat) : SVec α :=
  u.entries.foldl (fun t ue =>
    (rowAt A ue.1).foldl (fun t ae =>
      if sparseMaskBit mask ae.1 then
        t.mergeSetElement ae.1 (op.mult ue.2 ae.2) op.add
      else t) t) ⟨n, [], false⟩

/-- The temporary the sparse overload builds (empty when the
`A.nvals() > 0 && u.nvals() > 0` guard fails and the scatter is skipped). -/
def sparseTemp (op : SR α) (mask : Option (SVec Bool)) (u : SVec α) (A : Mat α)
    (n : Nat) : SVec α :=
  if 0 < matNvals A ∧ 0 < u.nvals then sparseScatter op mask u A n else ⟨n, [], false⟩

/-- The sparse-vector `vxm` overload (lines 444–577): pre-pass (clear /
mask pruning) before the nvals guard, scatter, then the accumulate merge,
the REPLACE move, or the MERGE `setElement` loop — and `setUnsorted()`
unconditionally at the end. -/
def sparseVxm (w : SVec α) (mask : Option (SVec Bool)) (accum : Option (α → α → α))
    (op : SR α) (u : SVec α) (A : Mat α) (outp : OutputControlEnum) : SVec α :=
  let w1 : SVec α :=
    match accum, mask with
    | none, none => w.clear
    | none, some _ => if outp = REPLACE then w.clear else w
    | some _, some m => if outp = REPLACE then sparseRemoveNotInMask w m else w
    | some _, none => w
  let w2 : SVec α :=
    if 0 < matNvals A ∧ 0 < u.nvals then
      let t := sparseScatter op mask u A w.size
      match accum with
      | some f => t.entries.foldl (fun acc e => acc.mergeSetElement e.1 e.2 f) w1
      | none =>
        if outp = REPLACE then t
        else t.entries.foldl (fun acc e => acc.setElement e.1 e.2) w1
    else w1
  w2.setUnsorted

/-! Adjacency-list iterator (`LilSparseMatrixIterator.hpp`).  The state is
the row index `row` plus the intra-row iterator `col_`; a C++ inner
iterator is a position inside one concrete row's storage, so it is
modelled as the pair (owning row `colRow`, offset `colOff`), and iterator
equality — pointer equality in C++ — holds only between positions of the
same owning row. -/

structure IterState where
  row : Nat
  colRow : Nat
  colOff : Nat
deriving DecidableEq

/-- The `col_ == matrix_()[row_].end()` comparison of `fast_forward`:
true exactly when `col_` is the end position of the row the loop is
currently looking at. -/
def colAtRowEnd (m : Mat α) (s : IterState) : Bool :=
  s.colRow = s.row && s.colOff = (rowAt m s.row).length

/-- One conditional step of the `fast_forward` loop body (lines 64–71),
with explicit fuel; the loop increments `row_` while `col_` sits at the
current row's end and `row_ < size()-1`, resetting `col_` to the new
row's begin only when the new row is not the last one. -/
def ffAux (m : Mat α) : Nat → IterState → IterState
  | 0, s => s
  | fuel + 1, s =>
    if colAtRowEnd m s ∧ s.row < m.length - 1 then
      if s.row + 1 ≠ m.length - 1 then ffAux m fuel ⟨s.row + 1, s.row + 1, 0⟩
      else ffAux m fuel ⟨s.row + 1, s.colRow, s.colOff⟩
    else s

/-- `fast_forward()`: the loop advances `row_` at least once per
iteration and stops at `size()-1`, so `m.length` fuel is enough. -/
def fastForward (m : Mat α) (s : IterState) : IterState := ffAux m m.length s

/-- `operator++`: advance `col_` one step, then `fast_forward()`. -/
def iterAdvance (m : Mat α) (s : IterState) : IterState :=
  fastForward m ⟨s.row, s.colRow, s.colOff + 1⟩

/-- Iterated single-step advance. -/
def iterStepN (m : Mat α) : Nat → IterState → IterState
  | 0, s => s
  | k + 1, s => iterStepN m k (iterAdvance m s)

/-- Modelled from the spec: the begin iterator the (absent) view
constructs — row 0, the first row's begin — run through the constructor's
`fast_forward()` (§4.4). -/
def beginIter (m : Mat α) : IterState := fastForward m ⟨0, 0, 0⟩

/-- Modelled from the spec: the end sentinel `(lastRow, lastRow's
end-of-range)` (§4.4); the accessor constructor's `fast_forward()` leaves
it unchanged. -/
def endIter (m : Mat α) : IterState :=
  fastForward m ⟨m.length - 1, m.length - 1, (rowAt m (m.length - 1)).length⟩

/-- `operator*`: reads `*col_` out of the row owning `col_` and pairs it
with the key `(row_, j)`; `none` models an out-of-range (undefined
behaviour) dereference. -/
def iterDeref (m : Mat α) (s : IterState) : Option (Nat × Nat × α) :=
  match (rowAt m s.colRow).get? s.colOff with
  | some e => some (s.row, e.1, e.2)
  | none => none

/-- The §4.4 invariant: the intra-row position is dereferenceable inside
the current row. -/
def validPos (m : Mat α) (s : IterState) : Bool :=
  s.colRow = s.row && s.colOff < (rowAt m s.row).length

/-! Generic `vxm` overloads (lines 56–96 and 106–158) and the transpose
equivalence.  The temporary is kept as a plain index-to-value map; the
helpers the overloads call (`axpy`, `dot`, `ewise_or_opt_accum_1D`,
`write_with_opt_mask_1D`) live in `sparse_helpers.hpp`, which is not in
src, and are modelled from the spec (§4.5). -/

/-- Modelled from the spec: `axpy(t, op, u_val, A[row])` — for each
`(col, weight)` of the row, `t[col] := t[col] ⊕ (u_val ⊗ weight)` (§4.5). -/
def axpyInto (op : SR α) (uw : α) (row : Row α) (t : Nat → Option α) : Nat → Option α :=
  row.foldl (fun t e => fun j =>
    if j = e.1 then
      some (match t e.1 with
            | some tv => op.add tv (op.mult uw e.2)
            | none => op.mult uw e.2)
    else t j) t

/-- One iteration of the generic overload's axpy loop (lines 73–79):
`if (u.hasElement(row_idx) && !A[row_idx].empty()) axpy(...)`. -/
def tempGoStep (op : SR α) (u : DVec α) (A : Mat α) (t : Nat → Option α) (idx : Nat) :
    Nat → Option α :=
  match u.data idx with
  | some uw => if (rowAt A idx).isEmpty then t else axpyInto op uw (rowAt A idx) t
  | none => t

/-- The axpy loop of the generic `vxm` overload (lines 71–80): for each
present `u[idx]` with a non-empty row, axpy that row into the temporary. -/
def genericTempGo (op : SR α) (u : DVec α) (A : Mat α) : Nat → Option α :=
  (List.range u.size).foldl (tempGoStep op u A) (fun _ => none)

/-- The temporary of the generic `vxm` overload, including the
`A.nvals() > 0 && u.nvals() > 0` guard. -/
def genericTemp (op : SR α) (u : DVec α) (A : Mat α) : Nat → Option α :=
  if 0 < matNvals A ∧ 0 < u.nvals then genericTempGo op u A else fun _ => none

/-- One combining step of the modelled `dot` helper: a row entry
`(j, weight)` contributes `u[j] ⊗ weight` when `u[j]` is present. -/
def dotStep (op : SR α) (u : DVec α) (acc : Option α) (e : Nat × α) : Option α :=
  match u.data e.1 with
  | some uw =>
    some (match acc with
          | some a => op.add a (op.mult uw e.2)
          | none => op.mult uw e.2)
  | none => acc

/-- Modelled from the spec: `dot(t_val, u_contents, A[row], op)` — fold the
row, combining `u[j] ⊗ weight` over the indices present in `u` with the
semiring add; `none` when no index overlaps (the helper's `false` return). -/
def dotList (op : SR α) (u : DVec α) (row : Row α) : Option α :=
  row.foldl (dotStep op u) none

/-- One iteration of the generic transpose-view overload's loop (lines
131–141): skip empty wrapped rows, else record the dot product under the
output row index when it produced a value. -/
def tempTGoStep (op : SR α) (u : DVec α) (A : Mat α) (t : Nat → Option α) (ri : Nat) :
    Nat → Option α :=
  if (rowAt A ri).isEmpty then t
  else
    match dotList op u (rowAt A ri) with
    | some v => fun j => if j = ri then some v else t j
    | none => t

/-- The dot-product loop of the generic transpose-view `vxm` overload
(lines 128–142): one dot of `u` with each non-empty wrapped row. -/
def genericTempTGo (op : SR α) (u : DVec α) (A : Mat α) (wsize : Nat) : Nat → Option α :=
  (List.range wsize).foldl (tempTGoStep op u A) (fun _ => none)

/-- The temporary of the generic transpose-view `vxm` overload, including
its `A.nvals() > 0 && u.nvals() > 0` guard on the wrapped matrix. -/
def genericTempT (op : SR α) (u : DVec α) (A : Mat α) (wsize : Nat) : Nat → Option α :=
  if 0 < matNvals A ∧ 0 < u.nvals then genericTempTGo op u A wsize else fun _ => none

/-- Modelled from the spec: `ewise_or_opt_accum_1D(z, w, t, accum)` — with
`NoAccumulate`, `z = t`; with an accumulate operator, the union of `w` and
`t`, combining overlaps with `accum(w, t)` (§4.5 regime 4). -/
def ewiseOrAccum (accum : Option (α → α → α)) (w : DVec α) (t : Nat → Option α) :
    Nat → Option α :=
  match accum with
  | none => t
  | some f => fun i =>
      match w.data i, t i with
      | some wv, some tv => some (f wv tv)
      | none, some tv => some tv
      | some wv, none => some wv
      | none, none => none

/-- Modelled from the spec: `write_with_opt_mask_1D(w, z, mask, outp)` —
no mask: `w := z`; masked: mask-passing indices take `z`, failing indices
are cleared under REPLACE and kept under MERGE (§4.5 regimes 1–4). -/
def writeWithOptMask (w : DVec α) (z : Nat → Option α) (mask : MaskArg)
    (outp : OutputControlEnum) : DVec α :=
  match mask with
  | .noMask => ⟨w.size, fun i => if i < w.size then z i else w.data i⟩
  | .mask mv comp strc =>
      ⟨w.size, fun i =>
        if i < w.size then
          if maskArgPass (.mask mv comp strc) i then z i
          else if outp = REPLACE then none else w.data i
        else w.data i⟩

/-- The generic `vxm` overload (lines 56–96): axpy temporary, accumulate
into `z`, then the masked write into `w`. -/
def genericVxm (w : DVec α) (mask : MaskArg) (accum : Option (α → α → α)) (op : SR α)
    (u : DVec α) (A : Mat α) (outp : OutputControlEnum) : DVec α :=
  writeWithOptMask w (ewiseOrAccum accum w (genericTemp op u A)) mask outp

/-- The generic transpose-view `vxm` overload (lines 106–158): dot-product
temporary over the wrapped matrix's rows (`u · Aᵗ` without materializing a
transpose), then the same accumulate and masked-write pipeline. -/
def genericVxmT (w : DVec α) (mask : MaskArg) (accum : Option (α → α → α)) (op : SR α)
    (u : DVec α) (A : Mat α) (outp : OutputControlEnum) : DVec α :=
  writeWithOptMask w (ewiseOrAccum accum w (genericTempT op u A w.size)) mask outp

/-- Row `k` of the materialized transpose: the `(i, value)` pairs collected
from each row `i` of `A` holding column `k` (reference construct for the
refinement statement; the source never builds it). -/
def transposeRow (A : Mat α) (k : Nat) : Row α :=
  (List.range A.length).filterMap
    (fun i => (((rowAt A i).find? (fun e => e.1 = k)).map Prod.snd).map (fun v => (i, v)))

/-- The materialized transpose with `ncols` rows (reference construct). -/
def transposeM (A : Mat α) (ncols : Nat) : Mat α :=
  (List.range ncols).map (fun k => transposeRow A k)

/-! Spec-side mask truth table (reference construct for the mask-formula
claim). -/

/-- Modelled from the spec: the §4.3 truth table, one explicit case per
mask mode — direct value (present and stored value true), direct
structural (present), complement value, complement structural. -/
def specMaskPass (mv : DVec Bool) : Bool → Bool → Nat → Bool
  | false, false, i => (mv.data i).getD false
  | false, true, i => (mv.data i).isSome
  | true, false, i => !((mv.data i).getD false)
  | true, true, i => !(mv.data i).isSome

/-- The claim's §4.3 membership formula read over a sparse mask vector:
`complement XOR (present(i) AND (structure-only OR storedValue(i)))`. -/
def svecMaskFormula (m : SVec Bool) (comp strc : Bool) (i : Nat) : Bool :=
  xor comp (m.hasElement i && (strc || (m.lookup i).getD false))

/-! Concrete instances used by the individual claims. -/

/-- The arithmetic (add, multiply) semiring over `Int`. -/
def srI : SR Int := ⟨fun a b => a + b, fun a b => a * b⟩

/-- Integer addition as an accumulate operator. -/
def accI : Int → Int → Int := fun a b => a + b

/-- C4 input vector `u = {0: 1, 2: 3}` of size 3. -/
def u4 : DVec Int := ⟨3, fun i => if i = 0 then some 1 else if i = 2 then some 3 else none⟩

/-- C4 matrix: row 0 = {(1, 5)}, row 1 empty, row 2 = {(1, 2), (2, 4)}. -/
def A4 : Mat Int := [[(1, 5)], [], [(1, 2), (2, 4)]]

/-- C4 initial output: empty dense vector of size 3. -/
def w4 : DVec Int := ⟨3, fun _ => none⟩

/-- C3 initial output `w = {0: 10}`. -/
def w3 : DVec Int := ⟨1, fun i => if i = 0 then some 10 else none⟩

/-- C3 input vector `u = {0: 1}`. -/
def u3 : DVec Int := ⟨1, fun i => if i = 0 then some 1 else none⟩

/-- C3 matrix with the single entry (0, 0) → 7, making `temp = {0: 7}`. -/
def A3 : Mat Int := [[(0, 7)]]

/-- C1 non-empty dense output `w = {0: 5}`. -/
def wE : DVec Int := ⟨1, fun i => if i = 0 then some 5 else none⟩

/-- C1 non-empty input vector. -/
def uE : DVec Int := ⟨1, fun i => if i = 0 then some 1 else none⟩

/-- C1 matrix with one (empty) row: `nvals() == 0`. -/
def AE : Mat Int := [[]]

/-- C1 non-empty sparse output. -/
def swC1 : SVec Int := ⟨1, [(0, 9)], false⟩

/-- C1 non-empty sparse input vector. -/
def suC1 : SVec Int := ⟨1, [(0, 2)], false⟩

/-- C2 mask vector storing the value `false` at index 0. -/
def smF : SVec Bool := ⟨1, [(0, false)], false⟩

/-- C2 initially empty sparse output. -/
def swE2 : SVec Int := ⟨1, [], false⟩

/-- C2 sparse input vector `u = {0: 2}`. -/
def suC2 : SVec Int := ⟨1, [(0, 2)], false⟩

/-- C2 matrix with the single entry (0, 0) → 3. -/
def sA2 : Mat Int := [[(0, 3)]]

/-- C5 mask passing (by value) at indices 0 and 1. -/
def sm5 : SVec Bool := ⟨2, [(0, true), (1, true)], false⟩

/-- C5 sparse output holding a pre-existing entry at mask-passing index 0. -/
def sw5 : SVec Int := ⟨2, [(0, 9)], false⟩

/-- C5 sparse input vector `u = {0: 1}`. -/
def su5 : SVec Int := ⟨2, [(0, 1)], false⟩

/-- C5 matrix producing `temp = {1: 4}` (no temp value at index 0). -/
def sA5 : Mat Int := [[(1, 4)]]

/-- C8 mask storing the value `false` at index 1 (formula: 1 fails). -/
def sm8 : SVec Bool := ⟨2, [(1, false)], false⟩

/-- C8 sparse output with a pre-existing entry at index 1. -/
def sw8 : SVec Int := ⟨2, [(1, 10)], false⟩

/-- C8 sparse input vector `u = {0: 1}`. -/
def su8 : SVec Int := ⟨2, [(0, 1)], false⟩

/-- C8 matrix producing `temp = {1: 4}`. -/
def sA8 : Mat Int := [[(1, 4)]]

/-- C6 matrix: two rows, each with one entry. -/
def m6 : Mat Int := [[(0, 5)], [(1, 7)]]

/-- C7 matrix: two rows, each with one entry. -/
def m7 : Mat Int := [[(0, 3)], [(2, 4)]]

/-- C5 witness dense output `w = {0: 3}`. -/
def wit5w : DVec Int := ⟨1, fun i => if i = 0 then some 3 else none⟩

/-- C5 witness dense mask `{0: true}`. -/
def wit5m : DVec Bool := ⟨1, fun i => if i = 0 then some true else none⟩

/-- C5 witness dense input `u = {0: 1}`. -/
def wit5u : DVec Int := ⟨1, fun i => if i = 0 then some 1 else none⟩

/-- C5 witness matrix with entry (0, 0) → 2. -/
def wit5A : Mat Int := [[(0, 2)]]

/-- C8 witness dense output `w = {0: 4}`. -/
def wit8w : DVec Int := ⟨1, fun i => if i = 0 then some 4 else none⟩

/-- C8 witness dense mask storing `false` at 0 (formula: 0 fails). -/
def wit8m : DVec Bool := ⟨1, fun i => if i = 0 then some false else none⟩

/-- C8 witness dense input `u = {0: 1}`. -/
def wit8u : DVec Int := ⟨1, fun i => if i = 0 then some 1 else none⟩

/-- C8 witness matrix with entry (0, 0) → 6. -/
def wit8A : Mat Int := [[(0, 6)]]

/-- C9 witness dense output of size 2. -/
def w9 : DVec Int := ⟨2, fun i => if i = 0 then some 1 else none⟩

/-- C9 witness input vector `u = {0: 2, 1: 5}`. -/
def u9 : DVec Int := ⟨2, fun i => if i = 0 then some 2 else if i = 1 then some 5 else none⟩

/-- C9 witness wrapped matrix (2 × 2, strictly sorted rows). -/
def A9 : Mat Int := [[(0, 3)], [(0, 7), (1, 4)]]

/-! Shared helper lemmas. -/

/-- A `find?` succeeds exactly when `any` holds. -/
theorem find?_isSome_eq_any (l : List (Nat × β)) (p : Nat × β → Bool) :
    (l.find? p).isSome = l.any p := by
  induction l with
  | nil => rfl
  | cons e l ih =>
    rw [List.find?, List.any_cons]
    cases hp : p e
    · simpa [hp] using ih
    · simp [hp]

/-- Replacing the value stored under key `j` leaves `find?` at any other
key unchanged. -/
theorem find?_map_replace_ne (l : List (Nat × α)) (j i : Nat) (x : α) (hne : i ≠ j) :
    ((l.map (fun e => if e.1 = j then (j, x) else e)).find? (fun e => e.1 = i)) =
      l.find? (fun e => e.1 = i) := by
  induction l with
  | nil => rfl
  | cons e l ih =>
    rw [List.map_cons]
    by_cases he : e.1 = j
    · rw [if_pos he]
      rw [List.find?_cons_of_neg _ (by simp [Ne.symm hne]),
          List.find?_cons_of_neg _ (by simp [he, Ne.symm hne])]
      exact ih
    · rw [if_neg he]
      by_cases hei : e.1 = i
      · rw [List.find?_cons_of_pos _ (by simp [hei]), List.find?_cons_of_pos _ (by simp [hei])]
      · rw [List.find?_cons_of_neg _ (by simp [hei]), List.find?_cons_of_neg _ (by simp [hei])]
        exact ih

/-- When key `j` is stored, replacing its value makes `find?` at `j`
return the replacement. -/
theorem find?_map_replace_self (l : List (Nat × α)) (j : Nat) (x : α)
    (h : (l.find? (fun e => e.1 = j)).isSome = true) :
    ((l.map (fun e => if e.1 = j then (j, x) else e)).find? (fun e => e.1 = j)) =
      some (j, x) := by
  induction l with
  | nil => simp [List.find?] at h
  | cons e l ih =>
    rw [List.map_cons]
    by_cases he : e.1 = j
    · rw [if_pos he, List.find?_cons_of_pos _ (by simp)]
    · rw [if_neg he]
      rw [List.find?_cons_of_neg _ (by simp [he])]
      refine ih ?_
      rwa [List.find?_cons_of_neg _ (by simp [he])] at h

/-- The replacement map preserves the key sequence. -/
theorem keys_map_replace (l : List (Nat × α)) (j : Nat) (x : α) :
    (l.map (fun e => if e.1 = j then (j, x) else e)).map Prod.fst = l.map Prod.fst := by
  induction l with
  | nil => rfl
  | cons e l ih =>
    rw [List.map_cons, List.map_cons, List.map_cons, ih]
    by_cases he : e.1 = j
    · rw [if_pos he]; simp [he]
    · rw [if_neg he]

namespace SVec

/-- `setUnsorted` only flips the flag. -/
theorem lookup_setUnsorted (v : SVec α) (i : Nat) : (v.setUnsorted).lookup i = v.lookup i := rfl

/-- `setElement` at `j` does not change the value observed at `i ≠ j`. -/
theorem lookup_setElement_ne (v : SVec α) (j : Nat) (x : α) (i : Nat) (h : i ≠ j) :
    (v.setElement j x).lookup i = v.lookup i := by
  rw [setElement]
  cases hf : v.entries.find? (fun e => e.1 = j)
  · simp only [lookup, List.find?_append]
    rw [List.find?_cons_of_neg _ (by simp [Ne.symm h])]
    simp [List.find?]
  · simp only [lookup]
    rw [find?_map_replace_ne _ _ _ _ h]

/-- `setElement` stores the given value under its key. -/
theorem lookup_setElement_self (v : SVec α) (j : Nat) (x : α) :
    (v.setElement j x).lookup j = some x := by
  rw [setElement]
  cases hf : v.entries.find? (fun e => e.1 = j)
  · simp only [lookup, List.find?_append, hf, Option.none_or]
    rw [List.find?_cons_of_pos _ (by simp)]
    rfl
  · simp only [lookup]
    rw [find?_map_replace_self _ _ _ (by simp [hf])]
    rfl

/-- `mergeSetElement` at `j` does not change the value observed at `i ≠ j`. -/
theorem lookup_mergeSetElement_ne (v : SVec α) (j : Nat) (x : α) (op : α → α → α)
    (i : Nat) (h : i ≠ j) :
    (v.mergeSetElement j x op).lookup i = v.lookup i := by
  rw [mergeSetElement]
  cases hf : v.entries.find? (fun e => e.1 = j)
  · simp only [lookup, List.find?_append]
    rw [List.find?_cons_of_neg _ (by simp [Ne.symm h])]
    simp [List.find?]
  · simp only [lookup]
    rw [find?_map_replace_ne _ _ _ _ h]

/-- Every entry of `mergeSetElement`'s result either carries the inserted
key or was already stored. -/
theorem mem_mergeSetElement (v : SVec α) (j : Nat) (x : α) (op : α → α → α) :
    ∀ e ∈ (v.mergeSetElement j x op).entries, e.1 = j ∨ e.1 ∈ v.entries.map Prod.fst := by
  intro e he
  rw [mergeSetElement] at he
  cases hf : v.entries.find? (fun e => e.1 = j) <;> rw [hf] at he
  · simp only [List.mem_append, List.mem_singleton] at he
    rcases he with he | he
    · exact Or.inr (List.mem_map_of_mem Prod.fst he)
    · subst he; exact Or.inl rfl
  · simp only [List.mem_map] at he
    obtain ⟨a, ha, hae⟩ := he
    by_cases haj : a.1 = j
    · rw [if_pos haj] at hae; subst hae; exact Or.inl rfl
    · rw [if_neg haj] at hae; subst hae
      exact Or.inr (List.mem_map_of_mem Prod.fst ha)

/-- `mergeSetElement` keeps the stored keys duplicate-free. -/
theorem nodup_keys_mergeSetElement (v : SVec α) (j : Nat) (x : α) (op : α → α → α)
    (h : (v.entries.map Prod.fst).Nodup) :
    ((v.mergeSetElement j x op).entries.map Prod.fst).Nodup := by
  rw [mergeSetElement]
  cases hf : v.entries.find? (fun e => e.1 = j)
  · rw [List.find?_eq_none] at hf
    simp only [List.map_append, List.map_cons, List.map_nil]
    rw [List.nodup_append]
    refine ⟨h, by simp, ?_⟩
    intro a ha
    simp only [List.mem_singleton]
    intro hb
    subst hb
    simp only [List.mem_map] at ha
    obtain ⟨e, he, hej⟩ := ha
    exact hf e he (by simp [hej])
  · rwa [keys_map_replace]

end SVec

/-- A left fold preserves any per-step-preserved predicate. -/
theorem foldl_preserve {α β : Type} (P : α → Prop) (f : α → β → α) (l : List β)
    (h : ∀ t b, P t → P (f t b)) (t0 : α) (h0 : P t0) : P (l.foldl f t0) := by
  induction l generalizing t0 with
  | nil => exact h0
  | cons b l ih => exact ih (f t0 b) (h t0 b h0)

/-- Folding `setElement` over entries with duplicate-free keys: the value
observed afterwards at `i` is the folded entry at `i` when one exists,
otherwise the original value. -/
theorem lookup_foldl_setElement (l : List (Nat × α)) (w : SVec α) (i : Nat)
    (hnd : (l.map Prod.fst).Nodup) :
    (l.foldl (fun acc e => acc.setElement e.1 e.2) w).lookup i =
      (match l.find? (fun e => e.1 = i) with
       | some e => some e.2
       | none => w.lookup i) := by
  induction l generalizing w with
  | nil => simp [List.find?]
  | cons e l ih =>
    rw [List.map_cons, List.nodup_cons] at hnd
    rw [List.foldl_cons]
    by_cases hei : e.1 = i
    · rw [List.find?_cons_of_pos _ (by simp [hei])]
      have hnone : l.find? (fun e => e.1 = i) = none := by
        rw [List.find?_eq_none]
        intro a ha
        simp only [decide_eq_true_eq]
        intro hai
        exact hnd.1 (by rw [← hei] at hai; rw [← hai]; exact List.mem_map_of_mem Prod.fst ha)
      rw [ih _ hnd.2, hnone]
      rw [← hei, SVec.lookup_setElement_self]
    · rw [List.find?_cons_of_neg _ (by simp [hei])]
      rw [ih _ hnd.2]
      cases l.find? (fun e => e.1 = i)
      · simp only []
        exact SVec.lookup_setElement_ne _ _ _ _ (fun hc => hei hc.symm)
      · rfl

/-- Folding `mergeSetElement` over entries none of which carry key `i`
leaves the value observed at `i` unchanged. -/
theorem lookup_foldl_mergeSetElement_not_mem (l : List (Nat × α)) (w : SVec α)
    (f : α → α → α) (i : Nat) (h : ∀ e ∈ l, e.1 ≠ i) :
    (l.foldl (fun acc e => acc.mergeSetElement e.1 e.2 f) w).lookup i = w.lookup i := by
  induction l generalizing w with
  | nil => rfl
  | cons e l ih =>
    rw [List.foldl_cons, ih _ (fun a ha => h a (List.mem_cons_of_mem e ha))]
    exact SVec.lookup_mergeSetElement_ne _ _ _ _ _
      (fun hc => h e (List.mem_cons_self e l) hc.symm)

/-- Invariant of the sparse scatter: the temporary's keys are
duplicate-free and every stored key passes the densified mask gate. -/
theorem sparseScatter_inv (op : SR α) (mask : Option (SVec Bool)) (u : SVec α)
    (A : Mat α) (n : Nat) :
    ((sparseScatter op mask u A n).entries.map Prod.fst).Nodup ∧
    (∀ e ∈ (sparseScatter op mask u A n).entries, sparseMaskBit mask e.1 = true) := by
  rw [sparseScatter]
  refine foldl_preserve
    (fun (t : SVec α) => ((t.entries.map Prod.fst).Nodup ∧
      ∀ e ∈ t.entries, sparseMaskBit mask e.1 = true)) _ _ ?_ _ ⟨by simp, by simp⟩
  intro t ue ht
  refine foldl_preserve
    (fun (t : SVec α) => ((t.entries.map Prod.fst).Nodup ∧
      ∀ e ∈ t.entries, sparseMaskBit mask e.1 = true)) _ _ ?_ _ ht
  intro t ae ht
  by_cases hb : sparseMaskBit mask ae.1 = true
  · rw [if_pos hb]
    refine ⟨SVec.nodup_keys_mergeSetElement _ _ _ _ ht.1, ?_⟩
    intro e he
    rcases SVec.mem_mergeSetElement _ _ _ _ e he with hej | hmem
    · rw [hej]; exact hb
    · simp only [List.mem_map] at hmem
      obtain ⟨a, ha, hae⟩ := hmem
      rw [← hae]
      exact ht.2 a ha
  · rw [if_neg hb]
    exact ht

/-- C10: every invocation of the sparse-vector vxm kernel returns `w` with
the unsorted flag set — `setUnsorted()` runs unconditionally at line 576,
even on the early-exit path where nothing was written. -/
theorem c10_unsorted_flag_always_set (α : Type) (w : SVec α) (mask : Option (SVec Bool))
    (accum : Option (α → α → α)) (op : SR α) (u : SVec α) (A : Mat α)
    (outp : OutputControlEnum) :
    (sparseVxm w mask accum op u A outp).unsorted = true := rfl

/-- C4: on `u = {0:1, 2:3}`, `A` with row0 = {(1,5)}, row1 empty,
row2 = {(1,2),(2,4)}, the (add, multiply) semiring, no mask, no
accumulate, REPLACE and an initially empty `w` of size 3, the dense vxm
overload leaves `w = {1: 11, 2: 12}`. -/
theorem c4_concrete_scenario :
    (denseVxm w4 .noMask none srI u4 A4 REPLACE).data 0 = none
  ∧ (denseVxm w4 .noMask none srI u4 A4 REPLACE).data 1 = some 11
  ∧ (denseVxm w4 .noMask none srI u4 A4 REPLACE).data 2 = some 12
  ∧ (denseVxm w4 .noMask none srI u4 A4 REPLACE).size = 3 := by
  refine ⟨by decide, by decide, by decide, by decide⟩

/-- C3 (code bug): in the dense overload with an accumulate operator and
no mask, the merge pass assigns `w = std::move(t)` wholesale (lines
357–369, under a branch whose own comment describes the accum-NULL case),
so the pre-existing `w[0] = 10` is discarded instead of combined:
the result is `temp[0] = 7`, not `accum(10, 7) = 17`. -/
theorem c3_accum_no_mask_overwrites :
    (denseVxm w3 .noMask (some accI) srI u3 A3 MERGE).data 0 = some 7
  ∧ (denseVxm w3 .noMask (some accI) srI u3 A3 MERGE).data 0 ≠ some (10 + 7) := by
  refine ⟨by decide, by decide⟩

/-- C1 counterexample: with `A.nvals() == 0`, no mask, no accumulate and
REPLACE, the dense overload leaves the non-empty `w = {0: 5}` fully
intact (its guard at line 225 skips even the clear), while the claim says
`w` becomes empty. -/
theorem c1_counterexample :
    (denseVxm wE .noMask none srI uE AE REPLACE).data 0 = some 5
  ∧ wE.nvals = 1 ∧ matNvals AE = 0 := by
  refine ⟨by decide, by decide, by decide⟩

/-- C1 (amended): on early exit (`A.nvals() == 0` or `u.nvals() == 0`) no
axpy work executes, but only the sparse-vector overload still applies the
clear regime (no mask, no accumulate: `w` becomes empty); the dense-vector
overload returns with `w` entirely unmodified. -/
theorem c1_early_exit_amended :
    (∀ (α : Type) (w : DVec α) (mask : MaskArg) (accum : Option (α → α → α)) (op : SR α)
        (u : DVec α) (A : Mat α) (outp : OutputControlEnum),
        matNvals A = 0 ∨ u.nvals = 0 → denseVxm w mask accum op u A outp = w)
  ∧ (∀ (α : Type) (w : SVec α) (op : SR α) (u : SVec α) (A : Mat α)
        (outp : OutputControlEnum),
        matNvals A = 0 ∨ u.nvals = 0 → (sparseVxm w none none op u A outp).entries = []) := by
  constructor
  · intro α w mask accum op u A outp h
    have hg : ¬ (0 < matNvals A ∧ 0 < u.nvals) := by
      rcases h with h | h <;> simp [h]
    simp [denseVxm, hg]
  · intro α w op u A outp h
    have hg : ¬ (0 < matNvals A ∧ 0 < u.nvals) := by
      rcases h with h | h <;> simp [h]
    simp [sparseVxm, hg, SVec.clear, SVec.setUnsorted]

/-- C1 witness: the amended statement applied to the concrete empty-matrix
inputs. -/
theorem c1_early_exit_amended_witness :
    denseVxm wE .noMask none srI uE AE REPLACE = wE
  ∧ (sparseVxm swC1 none none srI suC1 AE REPLACE).entries = [] :=
  ⟨c1_early_exit_amended.1 Int wE .noMask none srI uE AE REPLACE (Or.inl (by decide)),
   c1_early_exit_amended.2 Int swC1 srI suC1 AE REPLACE (Or.inl (by decide))⟩

/-- C2 counterexample: the sparse-vector overload treats index 0 as
mask-passing (it writes the product there) although the mask stores the
value `false` at 0, so the §4.3 formula
`complement XOR (present AND (structure-only OR truthy))` evaluates to
`false`: the kernel's treatment does not equal the formula at this
consultation point. -/
theorem c2_counterexample :
    svecMaskFormula smF false false 0 = false
  ∧ (sparseVxm swE2 (some smF) none srI suC2 sA2 MERGE).hasElement 0 = true := by
  refine ⟨by decide, by decide⟩

/-- C2 (amended): in the dense-vector overload the mask treatment at every
consultation point matches the §4.3 formula — the scatter/merge test
reproduces the four-mode truth table, the no-mask sentinel always passes,
and the accumulate-REPLACE pre-pass removes exactly the indices failing
the same formula; the sparse-vector overload instead takes membership to
be "index is stored in the mask", ignoring stored values and the
complement/structure flags. -/
theorem c2_mask_formula_amended :
    (∀ (mv : DVec Bool) (i : Nat),
        maskArgPass (.mask mv false false) i = specMaskPass mv false false i
      ∧ maskArgPass (.mask mv false true) i = specMaskPass mv false true i
      ∧ maskArgPass (.mask mv true false) i = specMaskPass mv true false i
      ∧ maskArgPass (.mask mv true true) i = specMaskPass mv true true i)
  ∧ (∀ i : Nat, maskArgPass .noMask i = true)
  ∧ (∀ (mv : DVec Bool) (comp strc : Bool) (i : Nat),
        denseRemoveCond mv comp strc i = !(maskArgPass (.mask mv comp strc) i))
  ∧ (∀ (m : SVec Bool) (i : Nat), sparseMaskBit (some m) i = m.hasElement i) := by
  refine ⟨?_, fun i => rfl, ?_, ?_⟩
  · intro mv i
    rcases h : mv.data i with _ | b
    · simp [maskArgPass, specMaskPass, DVec.hasElement, h]
    · cases b <;> simp [maskArgPass, specMaskPass, DVec.hasElement, h]
  · intro mv comp strc i
    rcases h : mv.data i with _ | b
    · cases comp <;> cases strc <;>
        simp [denseRemoveCond, maskArgPass, DVec.hasElement, h]
    · cases comp <;> cases strc <;> cases b <;>
        simp [denseRemoveCond, maskArgPass, DVec.hasElement, h]
  · intro m i
    rw [sparseMaskBit, SVec.hasElement, find?_isSome_eq_any]

/-- C6 (code bug): on the two-row matrix `[[(0,5)], [(1,7)]]` the
traversal yields `(0,0,5)`, but the first advance leaves the intra-row
iterator pointing past row 0's storage (`fast_forward` at lines 64–71
never resets `col_` when entering the last row), so `(1,1,7)` is never
yielded — the dereference is out of range — and no number of further
advances ever reaches the end sentinel. -/
theorem c6_iterator_drops_last_row :
    iterDeref m6 (beginIter m6) = some (0, 0, 5)
  ∧ iterAdvance m6 (beginIter m6) = ⟨1, 0, 1⟩
  ∧ iterDeref m6 (iterAdvance m6 (beginIter m6)) = none
  ∧ ∀ k, iterStepN m6 k (iterAdvance m6 (beginIter m6)) ≠ endIter m6 := by
  have hadv : ∀ c, iterAdvance m6 ⟨1, 0, c⟩ = ⟨1, 0, c + 1⟩ := by
    intro c
    simp [iterAdvance, fastForward, ffAux, colAtRowEnd, m6]
  have hstep : ∀ k c, iterStepN m6 k ⟨1, 0, c⟩ = ⟨1, 0, c + k⟩ := by
    intro k
    induction k with
    | zero => intro c; rfl
    | succ k ih =>
      intro c
      rw [iterStepN, hadv, ih]
      congr 1
      omega
  refine ⟨by decide, by decide, by decide, ?_⟩
  intro k
  have h1 : iterAdvance m6 (beginIter m6) = ⟨1, 0, 1⟩ := by decide
  rw [h1, hstep]
  have h2 : endIter m6 = ⟨1, 1, 1⟩ := by decide
  rw [h2]
  simp

/-- C7 (code bug): on `[[(0,3)], [(2,4)]]` the state reached by
construction plus one single-step advance has its intra-row position
inside row 0's (exhausted) storage while `row_ = 1`: it is neither a
dereferenceable position of the current row nor the end sentinel. -/
theorem c7_invariant_violated :
    validPos m7 (iterAdvance m7 (beginIter m7)) = false
  ∧ iterAdvance m7 (beginIter m7) ≠ endIter m7 := by
  refine ⟨by decide, by decide⟩

/-- Pointwise reading of the dense merge pass in the masked case
(definitional unfolding). -/
theorem denseMerge_mask_data (w t : DVec α) (mv : DVec Bool) (comp strc : Bool)
    (accum : Option (α → α → α)) (outp : OutputControlEnum) (i : Nat) :
    (denseMerge w t (.mask mv comp strc) accum outp).data i =
      (if i < w.size then
        if maskArgPass (.mask mv comp strc) i then
          match accum with
          | some f =>
            (match t.data i with
             | some tv =>
               (match w.data i with
                | some wv => some (f wv tv)
                | none => some tv)
             | none => w.data i)
          | none =>
            (match t.data i with
             | some tv => some tv
             | none => none)
        else if outp = REPLACE then none else w.data i
      else w.data i) := rfl

/-- Unfolding of the sparse overload with a mask, no accumulate and MERGE:
pre-pass leaves `w`, then either the `setElement` merge loop over the
temporary's entries runs (non-trivial product) or nothing does, and the
unsorted flag is raised. -/
theorem sparseVxm_no_accum_merge (w : SVec α) (m : SVec Bool) (op : SR α) (u : SVec α)
    (A : Mat α) :
    sparseVxm w (some m) none op u A MERGE =
      (if 0 < matNvals A ∧ 0 < u.nvals then
        ((sparseScatter op (some m) u A w.size).entries.foldl
          (fun acc e => acc.setElement e.1 e.2) w)
      else w).setUnsorted := by
  by_cases hg : 0 < matNvals A ∧ 0 < u.nvals <;> simp [sparseVxm, hg]

/-- Unfolding of the sparse overload with a mask, an accumulate operator
and MERGE: pre-pass leaves `w`, then the `mergeSetElement` accumulate loop
over the temporary's entries runs when the product is non-trivial, and the
unsorted flag is raised. -/
theorem sparseVxm_accum_merge (w : SVec α) (m : SVec Bool) (f : α → α → α) (op : SR α)
    (u : SVec α) (A : Mat α) :
    sparseVxm w (some m) (some f) op u A MERGE =
      (if 0 < matNvals A ∧ 0 < u.nvals then
        ((sparseScatter op (some m) u A w.size).entries.foldl
          (fun acc e => acc.mergeSetElement e.1 e.2 f) w)
      else w).setUnsorted := by
  by_cases hg : 0 < matNvals A ∧ 0 < u.nvals <;> simp [sparseVxm, hg]

/-- C5 counterexample: sparse overload, no accumulate, MERGE, mask passing
at index 0 (also under the §4.3 formula), temporary with no value at 0 —
the pre-existing `w[0] = 9` is left in place, while the claim requires it
to be removed. -/
theorem c5_counterexample :
    sparseMaskBit (some sm5) 0 = true
  ∧ svecMaskFormula sm5 false false 0 = true
  ∧ (sparseTemp srI (some sm5) su5 sA5 sw5.size).hasElement 0 = false
  ∧ (sparseVxm sw5 (some sm5) none srI su5 sA5 MERGE).lookup 0 = some 9 := by
  refine ⟨by decide, by decide, by decide, by decide⟩

/-- C5 (amended): with no accumulate, a mask and MERGE, the dense-vector
overload (when its nvals guard passes) leaves out-of-mask indices
untouched and writes each in-mask index to the temporary's value —
removing the entry when the temporary has none; the sparse-vector overload
copies the temporary's values over `w` but leaves every index the
temporary does not cover unchanged (in-mask entries with no temporary
value are not removed there, and the early-exit path changes nothing). -/
theorem c5_no_accum_masked_merge_amended :
    (∀ (α : Type) (w : DVec α) (mv : DVec Bool) (comp strc : Bool) (op : SR α)
        (u : DVec α) (A : Mat α),
        0 < matNvals A ∧ 0 < u.nvals →
        ∀ i, i < w.size →
          (denseVxm w (.mask mv comp strc) none op u A MERGE).data i =
            (if maskArgPass (.mask mv comp strc) i then
              (denseScatter op (.mask mv comp strc) u A w.size).data i
            else w.data i))
  ∧ (∀ (α : Type) (w : SVec α) (m : SVec Bool) (op : SR α) (u : SVec α) (A : Mat α)
        (i : Nat),
        (sparseVxm w (some m) none op u A MERGE).lookup i =
          (if (sparseTemp op (some m) u A w.size).hasElement i then
            (sparseTemp op (some m) u A w.size).lookup i
          else w.lookup i)) := by
  constructor
  · intro α w mv comp strc op u A hg i hi
    rw [denseVxm, if_pos hg]
    have hpre : densePre w (.mask mv comp strc) none MERGE = w := by simp [densePre]
    rw [hpre, denseMerge_mask_data, if_pos hi]
    by_cases hp : maskArgPass (.mask mv comp strc) i = true
    · rw [if_pos hp, if_pos hp]
      cases (denseScatter op (.mask mv comp strc) u A w.size).data i <;> rfl
    · rw [if_neg hp, if_neg hp]
      simp
  · intro α w m op u A i
    rw [sparseVxm_no_accum_merge]
    by_cases hg : 0 < matNvals A ∧ 0 < u.nvals
    · rw [if_pos hg, SVec.lookup_setUnsorted]
      rw [lookup_foldl_setElement _ _ i (sparseScatter_inv op (some m) u A w.size).1]
      rw [sparseTemp, if_pos hg]
      cases hf : (sparseScatter op (some m) u A w.size).entries.find? (fun e => e.1 = i)
      · simp [SVec.hasElement, hf, SVec.lookup]
      · simp [SVec.hasElement, hf, SVec.lookup]
    · rw [if_neg hg, SVec.lookup_setUnsorted]
      simp [sparseTemp, hg, SVec.hasElement, List.find?]

/-- C5 witness: the amended statement applied to concrete inputs (dense
part with the nvals guard discharged, sparse part at index 0). -/
theorem c5_no_accum_masked_merge_amended_witness :
    (denseVxm wit5w (.mask wit5m false false) none srI wit5u wit5A MERGE).data 0 =
      (if maskArgPass (.mask wit5m false false) 0 then
        (denseScatter srI (.mask wit5m false false) wit5u wit5A wit5w.size).data 0
      else wit5w.data 0)
  ∧ (sparseVxm sw5 (some sm5) none srI su5 sA5 MERGE).lookup 0 =
      (if (sparseTemp srI (some sm5) su5 sA5 sw5.size).hasElement 0 then
        (sparseTemp srI (some sm5) su5 sA5 sw5.size).lookup 0
      else sw5.lookup 0) :=
  ⟨c5_no_accum_masked_merge_amended.1 Int wit5w wit5m false false srI wit5u wit5A
      ⟨by decide, by decide⟩ 0 (by decide),
   c5_no_accum_masked_merge_amended.2 Int sw5 sm5 srI su5 sA5 0⟩

/-- C8 counterexample: sparse overload, accumulate present, MERGE; index 1
is outside the mask under the §4.3 formula (the mask stores `false`
there), yet the pre-existing `w[1] = 10` is accumulated into `14`. -/
theorem c8_counterexample :
    svecMaskFormula sm8 false false 1 = false
  ∧ sw8.lookup 1 = some 10
  ∧ (sparseVxm sw8 (some sm8) (some accI) srI su8 sA8 MERGE).lookup 1 = some 14 := by
  refine ⟨by decide, by decide, by decide⟩

/-- C8 (amended): with an accumulate operator, a mask and MERGE, the final
value and presence of `w` is unchanged at every index the kernel's own
mask treatment excludes — for the dense-vector overload that is every
index failing the §4.3 formula, for the sparse-vector overload every index
not stored in the mask (its membership is presence-only, so value-`false`
entries count as inside). -/
theorem c8_accum_masked_merge_frame_amended :
    (∀ (α : Type) (w : DVec α) (mv : DVec Bool) (comp strc : Bool) (f : α → α → α)
        (op : SR α) (u : DVec α) (A : Mat α) (i : Nat),
        maskArgPass (.mask mv comp strc) i = false →
        (denseVxm w (.mask mv comp strc) (some f) op u A MERGE).data i = w.data i)
  ∧ (∀ (α : Type) (w : SVec α) (m : SVec Bool) (f : α → α → α) (op : SR α)
        (u : SVec α) (A : Mat α) (i : Nat),
        sparseMaskBit (some m) i = false →
        (sparseVxm w (some m) (some f) op u A MERGE).lookup i = w.lookup i) := by
  constructor
  · intro α w mv comp strc f op u A i hp
    rw [denseVxm]
    by_cases hg : 0 < matNvals A ∧ 0 < u.nvals
    · rw [if_pos hg]
      have hpre : densePre w (.mask mv comp strc) (some f) MERGE = w := by simp [densePre]
      rw [hpre, denseMerge_mask_data]
      by_cases hi : i < w.size
      · rw [if_pos hi, if_neg (by simp [hp])]
        simp
      · rw [if_neg hi]
    · rw [if_neg hg]
  · intro α w m f op u A i hb
    rw [sparseVxm_accum_merge]
    by_cases hg : 0 < matNvals A ∧ 0 < u.nvals
    · rw [if_pos hg, SVec.lookup_setUnsorted]
      refine lookup_foldl_mergeSetElement_not_mem _ _ _ _ ?_
      intro e he hei
      have hbit := (sparseScatter_inv op (some m) u A w.size).2 e he
      rw [hei, hb] at hbit
      exact Bool.false_ne_true hbit
    · rw [if_neg hg, SVec.lookup_setUnsorted]

/-- C8 witness: the amended statement applied to concrete inputs with the
mask-exclusion hypotheses discharged at index 0. -/
theorem c8_accum_masked_merge_frame_amended_witness :
    (denseVxm wit8w (.mask wit8m false false) (some accI) srI wit8u wit8A MERGE).data 0 =
      wit8w.data 0
  ∧ (sparseVxm sw8 (some sm8) (some accI) srI su8 sA8 MERGE).lookup 0 = sw8.lookup 0 :=
  ⟨c8_accum_masked_merge_frame_amended.1 Int wit8w wit8m false false accI srI wit8u wit8A 0
      (by decide),
   c8_accum_masked_merge_frame_amended.2 Int sw8 sm8 accI srI su8 sA8 0 (by decide)⟩

/-- `find?` by key over a `filterMap` that tags each source index with its
own key: with duplicate-free sources it returns the tagged value at the
queried key. -/
theorem find?_filterMap_keyed (l : List Nat) (g : Nat → Option β) (j : Nat)
    (hl : l.Nodup) :
    ((l.filterMap (fun i => (g i).map (fun v => (i, v)))).find? (fun e => e.1 = j)) =
      (if j ∈ l then (g j).map (fun v => (j, v)) else none) := by
  induction l with
  | nil => rfl
  | cons i l ih =>
    rw [List.nodup_cons] at hl
    by_cases hj : j = i
    · subst hj
      cases hg : g j
      · simp only [List.filterMap_cons, hg, Option.map_none']
        rw [ih hl.2, if_neg hl.1, if_pos (List.mem_cons_self _ _)]
      · simp only [List.filterMap_cons, hg, Option.map_some']
        rw [List.find?_cons_of_pos _ (by simp), if_pos (List.mem_cons_self _ _)]
    · cases hg : g i
      · simp only [List.filterMap_cons, hg, Option.map_none']
        rw [ih hl.2]
        simp [List.mem_cons, hj]
      · simp only [List.filterMap_cons, hg, Option.map_some']
        rw [List.find?_cons_of_neg _ (by simp [Ne.symm hj]), ih hl.2]
        simp [List.mem_cons, hj]

/-- The keys produced by an index-tagging `filterMap` form a sublist of
the source indices. -/
theorem keys_filterMap_keyed_sublist (l : List Nat) (g : Nat → Option β) :
    ((l.filterMap (fun i => (g i).map (fun v => (i, v)))).map Prod.fst).Sublist l := by
  induction l with
  | nil => simp
  | cons i l ih =>
    cases hg : g i
    · simp only [List.filterMap_cons, hg, Option.map_none']
      exact ih.cons i
    · simp only [List.filterMap_cons, hg, Option.map_some', List.map_cons]
      exact ih.cons₂ i

/-- `find?` by key inside a transpose row: the value stored in row `j` of
the original matrix at column `k`, tagged with `j`. -/
theorem transposeRow_find? (A : Mat α) (k j : Nat) :
    (transposeRow A k).find? (fun e => e.1 = j) =
      (if j < A.length then
        (((rowAt A j).find? (fun e => e.1 = k)).map Prod.snd).map (fun v => (j, v))
      else none) := by
  rw [transposeRow, find?_filterMap_keyed _ _ _ (List.nodup_range _)]
  simp [List.mem_range]

/-- Transpose rows never repeat a key. -/
theorem transposeRow_keys_nodup (A : Mat α) (k : Nat) :
    ((transposeRow A k).map Prod.fst).Nodup :=
  (keys_filterMap_keyed_sublist _ _).nodup (List.nodup_range _)

/-- Row access into the materialized transpose. -/
theorem rowAt_transposeM (A : Mat α) (n i : Nat) :
    rowAt (transposeM A n) i = (if i < n then transposeRow A i else []) := by
  rw [transposeM, rowAt, List.getD_eq_getElem?_getD, List.getElem?_map]
  by_cases hi : i < n
  · rw [List.getElem?_range hi, if_pos hi]
    rfl
  · rw [List.getElem?_eq_none (by simpa using Nat.le_of_not_lt hi), if_neg hi]
    rfl

/-- In-range row access is list membership. -/
theorem rowAt_mem (A : Mat α) (j : Nat) (h : j < A.length) : rowAt A j ∈ A := by
  rw [rowAt, List.getD_eq_getElem?_getD, List.getElem?_eq_getElem h]
  exact List.getElem_mem h

/-- Out-of-range row access yields the empty row. -/
theorem rowAt_oob (A : Mat α) (j : Nat) (h : A.length ≤ j) : rowAt A j = [] :=
  List.getD_eq_default _ _ h

/-- A filter by an upper bound that every key satisfies is the identity. -/
theorem filter_bound_full (row : Row α) (n : Nat) (hb : ∀ e ∈ row, e.1 < n) :
    row.filter (fun e => decide (e.1 < n)) = row := by
  rw [List.filter_eq_self]
  intro a ha
  simpa using hb a ha

/-- An axpy over a row not containing key `j` leaves position `j` alone. -/
theorem axpyInto_not_mem (op : SR α) (uw : α) (row : Row α) (t : Nat → Option α) (j : Nat)
    (h : ∀ e ∈ row, e.1 ≠ j) :
    axpyInto op uw row t j = t j := by
  induction row generalizing t with
  | nil => rfl
  | cons e row ih =>
    rw [axpyInto, List.foldl_cons, ← axpyInto]
    rw [ih _ (fun a ha => h a (List.mem_cons_of_mem e ha))]
    simp [Ne.symm (h e (List.mem_cons_self e row))]

/-- Pointwise characterization of one axpy over a row with
duplicate-free keys: position `j` is combined with the row's entry at `j`
when one exists, otherwise untouched. -/
theorem axpyInto_char (op : SR α) (uw : α) (row : Row α) (t : Nat → Option α) (j : Nat)
    (hnd : (row.map Prod.fst).Nodup) :
    axpyInto op uw row t j =
      (match row.find? (fun e => e.1 = j) with
       | some e => some (match t j with
                         | some tv => op.add tv (op.mult uw e.2)
                         | none => op.mult uw e.2)
       | none => t j) := by
  induction row generalizing t with
  | nil => rfl
  | cons e row ih =>
    rw [List.map_cons, List.nodup_cons] at hnd
    rw [axpyInto, List.foldl_cons, ← axpyInto]
    by_cases hej : e.1 = j
    · rw [List.find?_cons_of_pos _ (by simp [hej])]
      rw [axpyInto_not_mem _ _ _ _ _ (fun a ha haj => hnd.1 (by
        rw [← hej] at haj
        rw [← haj]
        exact List.mem_map_of_mem Prod.fst ha))]
      simp [hej]
    · rw [List.find?_cons_of_neg _ (by simp [hej]), ih _ hnd.2]
      rw [if_neg (show ¬ j = e.1 from fun h => hej h.symm)]

/-- One transpose-view loop iteration leaves other positions alone. -/
theorem tempTGoStep_ne (op : SR α) (u : DVec α) (A : Mat α) (t : Nat → Option α)
    (ri j : Nat) (h : j ≠ ri) :
    tempTGoStep op u A t ri j = t j := by
  rw [tempTGoStep]
  by_cases he : (rowAt A ri).isEmpty
  · rw [if_pos he]
  · rw [if_neg he]
    cases dotList op u (rowAt A ri)
    · rfl
    · simp [h]

/-- One transpose-view loop iteration records exactly the dot product at
its own position (when that position was still empty). -/
theorem tempTGoStep_self (op : SR α) (u : DVec α) (A : Mat α) (t : Nat → Option α)
    (ri : Nat) (h0 : t ri = none) :
    tempTGoStep op u A t ri ri = dotList op u (rowAt A ri) := by
  rw [tempTGoStep]
  by_cases he : (rowAt A ri).isEmpty = true
  · rw [if_pos he, h0, List.isEmpty_iff.mp he]
    rfl
  · rw [if_neg he]
    cases hd : dotList op u (rowAt A ri)
    · exact h0
    · simp

/-- Pointwise characterization of the transpose-view loop folded over any
duplicate-free index list starting from an empty accumulator. -/
theorem tempTGo_fold (op : SR α) (u : DVec α) (A : Mat α) (l : List Nat)
    (t0 : Nat → Option α) (j : Nat) (hl : l.Nodup) (h0 : ∀ i ∈ l, t0 i = none) :
    (l.foldl (tempTGoStep op u A) t0) j =
      (if j ∈ l then dotList op u (rowAt A j) else t0 j) := by
  induction l generalizing t0 with
  | nil => simp
  | cons ri l ih =>
    rw [List.nodup_cons] at hl
    rw [List.foldl_cons]
    rw [ih _ hl.2 (fun i hi => by
      rw [tempTGoStep_ne _ _ _ _ _ _ (fun hir => hl.1 (by rw [← hir]; exact hi))]
      exact h0 i (List.mem_cons_of_mem ri hi))]
    by_cases hj : j ∈ l
    · rw [if_pos hj, if_pos (List.mem_cons_of_mem ri hj)]
    · rw [if_neg hj]
      by_cases hjr : j = ri
      · subst hjr
        rw [if_pos (List.mem_cons_self _ _)]
        exact tempTGoStep_self _ _ _ _ _ (h0 j (List.mem_cons_self _ _))
      · rw [if_neg (by simp [List.mem_cons, hjr, hj])]
        exact tempTGoStep_ne _ _ _ _ _ _ hjr

/-- Splitting a key filter at the next bound, over a strictly
column-sorted row. -/
theorem filter_lt_succ_split (row : Row α) (k : Nat)
    (hs : row.Pairwise (fun a b => a.1 < b.1)) :
    row.filter (fun e => decide (e.1 < k + 1)) =
      row.filter (fun e => decide (e.1 < k)) ++ row.filter (fun e => decide (e.1 = k)) := by
  induction row with
  | nil => rfl
  | cons e row ih =>
    rw [List.pairwise_cons] at hs
    rcases Nat.lt_trichotomy e.1 k with hlt | heq | hgt
    · rw [List.filter_cons_of_pos (by simp; omega), List.filter_cons_of_pos (by simp [hlt]),
          List.filter_cons_of_neg (by simp; omega), List.cons_append, ih hs.2]
    · have hrest : ∀ a ∈ row, k < a.1 := fun a ha => heq ▸ hs.1 a ha
      rw [List.filter_cons_of_pos (by simp; omega), List.filter_cons_of_neg (by simp; omega),
          List.filter_cons_of_pos (by simp [heq])]
      rw [List.filter_eq_nil_iff.mpr (fun a ha => by have := hrest a ha; simp; omega),
          List.filter_eq_nil_iff.mpr (fun a ha => by have := hrest a ha; simp; omega),
          List.filter_eq_nil_iff.mpr (fun a ha => by have := hrest a ha; simp; omega)]
      rfl
    · rw [List.filter_cons_of_neg (by simp; omega), List.filter_cons_of_neg (by simp; omega),
          List.filter_cons_of_neg (by simp; omega), ih hs.2]

/-- Over a strictly column-sorted row, the entries with one exact key are
what `find?` returns. -/
theorem filter_eq_key_find (row : Row α) (k : Nat)
    (hs : row.Pairwise (fun a b => a.1 < b.1)) :
    row.filter (fun e => decide (e.1 = k)) =
      (match row.find? (fun e => e.1 = k) with
       | some e => [e]
       | none => []) := by
  induction row with
  | nil => rfl
  | cons e row ih =>
    rw [List.pairwise_cons] at hs
    by_cases hek : e.1 = k
    · rw [List.filter_cons_of_pos (by simp [hek]), List.find?_cons_of_pos _ (by simp [hek])]
      rw [List.filter_eq_nil_iff.mpr (fun a ha => by
        have := hs.1 a ha
        simp
        omega)]
    · rw [List.filter_cons_of_neg (by simp [hek]), List.find?_cons_of_neg _ (by simp [hek])]
      exact ih hs.2

/-- Unfolding of one generic axpy iteration at an absent `u[idx]`. -/
theorem tempGoStep_none (op : SR α) (u : DVec α) (A : Mat α) (t : Nat → Option α)
    (idx : Nat) (hu : u.data idx = none) :
    tempGoStep op u A t idx = t := by
  rw [tempGoStep, hu]

/-- Unfolding of one generic axpy iteration at a present `u[idx]`. -/
theorem tempGoStep_some (op : SR α) (u : DVec α) (A : Mat α) (t : Nat → Option α)
    (idx : Nat) (uw : α) (hu : u.data idx = some uw) :
    tempGoStep op u A t idx =
      (if (rowAt A idx).isEmpty then t else axpyInto op uw (rowAt A idx) t) := by
  rw [tempGoStep, hu]

/-- Prefix invariant tying the axpy accumulation over the materialized
transpose to the dot products over the original rows: after processing
source indices `0..k`, position `j` holds the dot of `u` with the part of
row `j` whose columns are below `k`. -/
theorem tempGo_transpose_prefix (op : SR α) (u : DVec α) (A : Mat α)
    (hs : ∀ row ∈ A, row.Pairwise (fun a b => a.1 < b.1))
    (hb : ∀ row ∈ A, ∀ e ∈ row, e.1 < u.size) (j : Nat) :
    ∀ k, ((List.range k).foldl (tempGoStep op u (transposeM A u.size)) (fun _ => none)) j =
      dotList op u ((rowAt A j).filter (fun e => decide (e.1 < k))) := by
  have hrow : (rowAt A j).Pairwise (fun a b => a.1 < b.1) := by
    by_cases hj : j < A.length
    · exact hs _ (rowAt_mem A j hj)
    · rw [rowAt_oob A j (Nat.le_of_not_lt hj)]
      exact List.Pairwise.nil
  have hrowb : ∀ e ∈ rowAt A j, e.1 < u.size := by
    by_cases hj : j < A.length
    · exact hb _ (rowAt_mem A j hj)
    · rw [rowAt_oob A j (Nat.le_of_not_lt hj)]
      intro e he
      exact absurd he (List.not_mem_nil e)
  intro k
  induction k with
  | zero =>
    rw [List.range_zero, List.foldl_nil,
        List.filter_eq_nil_iff.mpr (fun a ha => by simp)]
    rfl
  | succ k ih =>
    rw [List.range_succ, List.foldl_append, List.foldl_cons, List.foldl_nil]
    rw [filter_lt_succ_split _ _ hrow, dotList, List.foldl_append, ← dotList,
        filter_eq_key_find _ _ hrow]
    cases hu : u.data k with
    | none =>
      rw [tempGoStep_none op u (transposeM A u.size) _ k hu]
      cases hfk : (rowAt A j).find? (fun e => e.1 = k) with
      | none => exact ih
      | some e =>
        have he0 := List.find?_some hfk
        have he1 : e.1 = k := by simpa using he0
        simp only [List.foldl_cons, List.foldl_nil, dotStep, he1, hu]
        exact ih
    | some uw =>
      rw [tempGoStep_some op u (transposeM A u.size) _ k uw hu, rowAt_transposeM]
      by_cases hk : k < u.size
      · rw [if_pos hk]
        by_cases hemp : (transposeRow A k).isEmpty = true
        · have htr : transposeRow A k = [] := List.isEmpty_iff.mp hemp
          have hfk : (rowAt A j).find? (fun e => e.1 = k) = none := by
            have h1 := transposeRow_find? A k j
            rw [htr] at h1
            by_cases hjl : j < A.length
            · rw [if_pos hjl] at h1
              have h2 := (Option.map_eq_none'.mp h1.symm)
              exact Option.map_eq_none'.mp h2
            · rw [rowAt_oob A j (Nat.le_of_not_lt hjl)]
              rfl
          rw [if_pos hemp, hfk]
          exact ih
        · rw [if_neg hemp]
          rw [axpyInto_char _ _ _ _ _ (transposeRow_keys_nodup A k)]
          rw [transposeRow_find?]
          by_cases hjl : j < A.length
          · rw [if_pos hjl]
            cases hfk : (rowAt A j).find? (fun e => e.1 = k) with
            | none =>
              simp only [Option.map_none']
              exact ih
            | some e =>
              have he0 := List.find?_some hfk
              have he1 : e.1 = k := by simpa using he0
              simp only [Option.map_some']
              rw [ih]
              simp only [List.foldl_cons, List.foldl_nil, dotStep, he1, hu]
          · rw [if_neg hjl]
            have hfk : (rowAt A j).find? (fun e => e.1 = k) = none := by
              rw [rowAt_oob A j (Nat.le_of_not_lt hjl)]
              rfl
            rw [hfk]
            exact ih
      · rw [if_neg hk]
        have hfk : (rowAt A j).find? (fun e => e.1 = k) = none := by
          rw [List.find?_eq_none]
          intro e he
          have := hrowb e he
          simp
          omega
        rw [hfk, if_pos (show (List.isEmpty ([] : Row α)) = true from rfl)]
        exact ih

/-- The axpy loop over the materialized transpose computes, at each
position, the dot product of `u` with the corresponding original row. -/
theorem tempGo_transpose (op : SR α) (u : DVec α) (A : Mat α)
    (hs : ∀ row ∈ A, row.Pairwise (fun a b => a.1 < b.1))
    (hb : ∀ row ∈ A, ∀ e ∈ row, e.1 < u.size) (j : Nat) :
    genericTempGo op u (transposeM A u.size) j = dotList op u (rowAt A j) := by
  have hrowb : ∀ e ∈ rowAt A j, e.1 < u.size := by
    by_cases hj : j < A.length
    · exact hb _ (rowAt_mem A j hj)
    · rw [rowAt_oob A j (Nat.le_of_not_lt hj)]
      intro e he
      exact absurd he (List.not_mem_nil e)
  have h := tempGo_transpose_prefix op u A hs hb j u.size
  rw [filter_bound_full _ _ hrowb] at h
  exact h

/-- The dot-product loop records exactly the dot of `u` with each in-range
row. -/
theorem tempTGo_char (op : SR α) (u : DVec α) (A : Mat α) (wsz j : Nat) :
    genericTempTGo op u A wsz j = (if j < wsz then dotList op u (rowAt A j) else none) := by
  have h := tempTGo_fold op u A (List.range wsz) (fun _ => none) j
    (List.nodup_range _) (fun _ _ => rfl)
  simp only [List.mem_range] at h
  exact h

/-- A matrix has a positive entry count exactly when some row is
non-empty. -/
theorem matNvals_pos_iff (M : Mat α) : 0 < matNvals M ↔ ∃ row ∈ M, row ≠ [] := by
  rw [Nat.pos_iff_ne_zero]
  constructor
  · intro h
    by_contra hc
    push_neg at hc
    refine h ?_
    rw [matNvals, List.sum_eq_zero_iff]
    intro x hx
    rcases List.mem_map.mp hx with ⟨row, hrow, hlen⟩
    rw [← hlen, List.length_eq_zero]
    exact hc row hrow
  · rintro ⟨row, hrow, hne⟩ h0
    rw [matNvals, List.sum_eq_zero_iff] at h0
    have hz := h0 row.length (List.mem_map_of_mem List.length hrow)
    rw [List.length_eq_zero] at hz
    exact hne hz

/-- Under the column-bound hypothesis the materialized transpose has an
entry exactly when the original matrix does. -/
theorem matNvals_transpose_pos (A : Mat α) (n : Nat)
    (hb : ∀ row ∈ A, ∀ e ∈ row, e.1 < n) :
    0 < matNvals (transposeM A n) ↔ 0 < matNvals A := by
  rw [matNvals_pos_iff, matNvals_pos_iff]
  constructor
  · rintro ⟨trow, htrow, hne⟩
    rw [transposeM] at htrow
    rcases List.mem_map.mp htrow with ⟨k, hk, hkeq⟩
    rcases List.exists_mem_of_ne_nil _ hne with ⟨el, hel⟩
    rw [← hkeq, transposeRow] at hel
    rcases List.mem_filterMap.mp hel with ⟨i, hi, hgi⟩
    have h1 : ((rowAt A i).find? (fun e => e.1 = k)).isSome = true := by
      cases hf : (rowAt A i).find? (fun e => e.1 = k)
      · rw [hf] at hgi
        simp at hgi
      · rfl
    rcases Option.isSome_iff_exists.mp h1 with ⟨e, he⟩
    have hmem := List.mem_of_find?_eq_some he
    refine ⟨rowAt A i, rowAt_mem A i (List.mem_range.mp hi), ?_⟩
    intro hnil
    rw [hnil] at hmem
    exact List.not_mem_nil e hmem
  · rintro ⟨row, hrow, hne⟩
    rcases List.exists_mem_of_ne_nil _ hne with ⟨e, he⟩
    rcases List.mem_iff_getElem.mp hrow with ⟨i, hil, hieq⟩
    have hrowAt : rowAt A i = row := by
      rw [rowAt, List.getD_eq_getElem?_getD, List.getElem?_eq_getElem hil]
      exact hieq
    have hbk : e.1 < n := hb row hrow e he
    have hfind : ((rowAt A i).find? (fun x => x.1 = e.1)).isSome = true := by
      rw [List.find?_isSome]
      exact ⟨e, by rw [hrowAt]; exact he, by simp⟩
    rcases Option.isSome_iff_exists.mp hfind with ⟨e', he'⟩
    refine ⟨transposeRow A e.1, ?_, ?_⟩
    · rw [transposeM]
      exact List.mem_map_of_mem _ (List.mem_range.mpr hbk)
    · intro hnil
      have hmem : (i, e'.2) ∈ transposeRow A e.1 := by
        rw [transposeRow]
        refine List.mem_filterMap.mpr ⟨i, List.mem_range.mpr hil, ?_⟩
        rw [he']
        rfl
      rw [hnil] at hmem
      exact List.not_mem_nil _ hmem

/-- The transpose-view temporary coincides with the axpy temporary of the
materialized transpose. -/
theorem genericTempT_eq_transpose (op : SR α) (u : DVec α) (A : Mat α) (wsz : Nat)
    (hlen : A.length = wsz)
    (hb : ∀ row ∈ A, ∀ e ∈ row, e.1 < u.size)
    (hs : ∀ row ∈ A, row.Pairwise (fun a b => a.1 < b.1)) :
    genericTempT op u A wsz = genericTemp op u (transposeM A u.size) := by
  rw [genericTempT, genericTemp]
  have hg : (0 < matNvals (transposeM A u.size) ∧ 0 < u.nvals) ↔
      (0 < matNvals A ∧ 0 < u.nvals) :=
    and_congr_left (fun _ => matNvals_transpose_pos A u.size hb)
  by_cases hguard : 0 < matNvals A ∧ 0 < u.nvals
  · rw [if_pos hguard, if_pos (hg.mpr hguard)]
    funext j
    rw [genericTempTGo, ← genericTempTGo, tempTGo_char, tempGo_transpose op u A hs hb j]
    by_cases hj : j < wsz
    · rw [if_pos hj]
    · rw [if_neg hj, rowAt_oob A j (by omega)]
      rfl
  · rw [if_neg hguard, if_neg (fun h => hguard (hg.mp h))]

/-- C9: the generic transpose-view `vxm` overload (dot-product form, never
materializing a transpose) produces the same output as the generic `vxm`
overload (axpy form) run on the materialized transpose of the wrapped
matrix, for well-formed inputs (rows strictly column-sorted, columns
bounded by `u`'s size, row count matching `w`'s size), for every mask,
accumulate and output-control argument. -/
theorem c9_transpose_view_equiv (α : Type) (op : SR α) (w u : DVec α) (A : Mat α)
    (mask : MaskArg) (accum : Option (α → α → α)) (outp : OutputControlEnum)
    (hlen : A.length = w.size)
    (hb : ∀ row ∈ A, ∀ e ∈ row, e.1 < u.size)
    (hs : ∀ row ∈ A, row.Pairwise (fun a b => a.1 < b.1)) :
    genericVxmT w mask accum op u A outp =
      genericVxm w mask accum op u (transposeM A u.size) outp := by
  rw [genericVxmT, genericVxm, genericTempT_eq_transpose op u A w.size hlen hb hs]

/-- C9 witness: the equivalence applied to a concrete 2 × 2 wrapped
matrix, with all three well-formedness hypotheses discharged by
evaluation. -/
theorem c9_transpose_view_equiv_witness :
    genericVxmT w9 .noMask none srI u9 A9 REPLACE =
      genericVxm w9 .noMask none srI u9 (transposeM A9 u9.size) REPLACE :=
  c9_transpose_view_equiv Int srI w9 u9 A9 .noMask none REPLACE (by decide) (by decide)
    (by decide)

end GBTL
